import Mathlib

/-!
Shallow embedding of the RocksDB/YugabyteDB version-edit mechanism
(src/yb/rocksdb/db/version_edit.h) in Lean 4.

Machine integers are modelled as Nat (unsigned) and Int (signed), with
explicit reductions modulo powers of two where C++ overflow semantics
matter.  Pointers (TableReader*, Cache::Handle*) are modelled as
Option Nat, with none standing for nullptr.  C++ std::string values are
modelled as byte lists (List Nat).  A fatal assertion in a mutator is
modelled by the mutator returning none.

The bodies of PackFileNumberAndPathId, FileMetaData::FileMetaData,
VersionEdit::Clear, FileMetaData::UpdateBoundaries,
VersionEdit::AppendEncodedTo and VersionEdit::DecodeFrom live in
version_edit.cc, which is not part of the sources; those definitions are
modelled from the specification and are marked as such in their doc
comments.  Everything else is translated directly from version_edit.h.
-/

namespace RocksDB

/-- The low 62 bits of a packed file identity hold the file number.
Source: const uint64_t kFileNumberMask = 0x3FFFFFFFFFFFFFFF. -/
def kFileNumberMask : Nat := 0x3FFFFFFFFFFFFFFF

/-- Modelled from the spec: PackFileNumberAndPathId is only declared
extern in version_edit.h; the spec states that the path id is combined
as a high-order multiplier of (mask + 1) over the low 62 bits holding
the file number, in a single 64-bit integer. -/
def PackFileNumberAndPathId (number : Nat) (path_id : Nat) : Nat :=
  (path_id * (kFileNumberMask + 1) + number) % 2 ^ 64

/-- A replicated-log position, a (term, index) pair of int64 values.
The OpId type comes from outside version_edit.h; modelled from the
spec as a pair of signed 64-bit integers. -/
structure OpId where
  term : Int
  index : Int
deriving DecidableEq, Repr

/-- Modelled from the spec: the flushed op id is defaulted when absent;
the default OpId is the zero position. -/
def OpId.zero : OpId := ⟨0, 0⟩

/-- Conversion of a uint64 sequence number to an int64 value, as the
implicit C++ conversion in OpId(1, largest.seqno) does (two's
complement wraparound). -/
def int64OfUInt64 (n : Nat) : Int :=
  if n % 2 ^ 64 < 2 ^ 63 then (n % 2 ^ 64 : Nat) else (n % 2 ^ 64 : Nat) - 2 ^ 64

/-- FileBoundaryValues of InternalKey: a user key together with the
extracted sequence number used for ordering.  The concrete
FileBoundaryValues type comes from dbformat.h (outside the sources);
modelled from the spec as a key plus the auxiliary ordering value. -/
structure BoundaryValues where
  key : List Nat
  seqno : Nat
deriving DecidableEq, Repr

/-- The default-constructed boundary: empty key, zero sequence number. -/
def BoundaryValues.empty : BoundaryValues := ⟨[], 0⟩

/-- struct FileDescriptor: a table reader pointer (none = nullptr),
the packed number-and-path identity, and the total and base file
sizes in bytes. -/
structure FileDescriptor where
  table_reader : Option Nat
  packed_number_and_path_id : Nat
  total_file_size : Nat
  base_file_size : Nat
deriving DecidableEq, Repr

/-- FileDescriptor(number, path_id, total, base): table_reader starts
as nullptr, the identity is packed via PackFileNumberAndPathId. -/
def FileDescriptor.make (number : Nat) (path_id : Nat)
    (total_file_size : Nat) (base_file_size : Nat) : FileDescriptor :=
  ⟨none, PackFileNumberAndPathId number path_id, total_file_size, base_file_size⟩

/-- FileDescriptor(): all-zero descriptor. -/
def FileDescriptor.default0 : FileDescriptor := FileDescriptor.make 0 0 0 0

/-- GetNumber: packed_number_and_path_id & kFileNumberMask. -/
def FileDescriptor.GetNumber (fd : FileDescriptor) : Nat :=
  Nat.land fd.packed_number_and_path_id kFileNumberMask

/-- GetPathId: static_cast of packed_number_and_path_id / (kFileNumberMask + 1)
to uint32. -/
def FileDescriptor.GetPathId (fd : FileDescriptor) : Nat :=
  (fd.packed_number_and_path_id / (kFileNumberMask + 1)) % 2 ^ 32

/-- struct FileMetaData, translated field by field from version_edit.h. -/
structure FileMetaData where
  refs : Int
  fd : FileDescriptor
  being_compacted : Bool
  smallest : BoundaryValues
  largest : BoundaryValues
  last_op_id : OpId
  imported : Bool
  table_reader_handle : Option Nat
  compensated_file_size : Nat
  num_entries : Nat
  num_deletions : Nat
  raw_key_size : Nat
  raw_value_size : Nat
  init_stats_from_file : Bool
  marked_for_compaction : Bool
deriving DecidableEq, Repr

/-- Modelled from the spec: the FileMetaData default constructor is in
version_edit.cc; per the spec, construction default-initializes all
counters to zero/false, pointers to nullptr and boundaries to empty. -/
def FileMetaData.mkDefault : FileMetaData :=
  { refs := 0
    fd := FileDescriptor.default0
    being_compacted := false
    smallest := BoundaryValues.empty
    largest := BoundaryValues.empty
    last_op_id := OpId.zero
    imported := false
    table_reader_handle := none
    compensated_file_size := 0
    num_entries := 0
    num_deletions := 0
    raw_key_size := 0
    raw_value_size := 0
    init_stats_from_file := false
    marked_for_compaction := false }

/-- A boundary-source for UpdateBoundaries: the caller-supplied
FileBoundaryValuesBase carrying the auxiliary ordering value (the
sequence number) to be extracted.  Modelled from the spec. -/
structure BoundarySource where
  seqno : Nat
deriving DecidableEq, Repr

/-- The boundary derived from a key and a source via the extractor:
the key itself plus the extracted auxiliary ordering value. -/
def deriveBoundary (key : List Nat) (source : BoundarySource) : BoundaryValues :=
  ⟨key, source.seqno⟩

/-- Modelled from the spec: FileMetaData::UpdateBoundaries is defined
in version_edit.cc.  Per the spec, on the first call both smallest and
largest are initialized from the new key; on subsequent calls smallest
stays the minimum seen (the first key, since callers must supply keys
in non-decreasing order) and largest is updated to the newly-supplied
key.  First-call detection is by the smallest boundary still holding
the empty key, as the default constructor leaves it (internal keys are
never empty, they carry an 8-byte trailer). -/
def FileMetaData.UpdateBoundaries (f : FileMetaData) (key : List Nat)
    (source : BoundarySource) : FileMetaData :=
  let b := deriveBoundary key source
  let f1 := if f.smallest.key = [] then { f with smallest := b } else f
  { f1 with largest := b }

/-- Strict ordering of std::pair (int, uint64_t), as std::set uses:
lexicographic on (level, file number). -/
def pairLt (a b : Int × Nat) : Bool :=
  a.1 < b.1 || (a.1 = b.1 && a.2 < b.2)

/-- Ordered insertion into the deleted-file set, modelling
std::set insert: keeps the list strictly sorted by pairLt and drops
duplicates. -/
def dfInsert (l : List (Int × Nat)) (x : Int × Nat) : List (Int × Nat) :=
  match l with
  | [] => [x]
  | y :: ys =>
    if pairLt x y then x :: y :: ys
    else if x = y then y :: ys
    else y :: dfInsert ys x

/-- class VersionEdit: private state, translated field by field.
The deleted-file std::set is modelled as a strictly sorted list. -/
structure VersionEdit where
  max_level : Int
  comparator : Option (List Nat)
  log_number : Option Nat
  prev_log_number : Option Nat
  next_file_number : Option Nat
  max_column_family : Option Nat
  last_sequence : Option Nat
  flushed_op_id : OpId
  deleted_files : List (Int × Nat)
  new_files : List (Int × FileMetaData)
  column_family : Nat
  is_column_family_drop : Bool
  column_family_name : Option (List Nat)
deriving DecidableEq, Repr

namespace VersionEdit

/-- Modelled from the spec: VersionEdit::Clear is defined in
version_edit.cc; it resets every optional field to absent, empties the
file lists, zeroes the column family id and flushed op id and clears
the lifecycle flags, yielding the state of a freshly constructed
VersionEdit (the constructor calls Clear). -/
def Clear : VersionEdit :=
  { max_level := 0
    comparator := none
    log_number := none
    prev_log_number := none
    next_file_number := none
    max_column_family := none
    last_sequence := none
    flushed_op_id := OpId.zero
    deleted_files := []
    new_files := []
    column_family := 0
    is_column_family_drop := false
    column_family_name := none }

/-- SetComparatorName. -/
def SetComparatorName (e : VersionEdit) (name : List Nat) : VersionEdit :=
  { e with comparator := some name }

/-- SetLogNumber. -/
def SetLogNumber (e : VersionEdit) (num : Nat) : VersionEdit :=
  { e with log_number := some num }

/-- SetPrevLogNumber. -/
def SetPrevLogNumber (e : VersionEdit) (num : Nat) : VersionEdit :=
  { e with prev_log_number := some num }

/-- SetNextFile. -/
def SetNextFile (e : VersionEdit) (num : Nat) : VersionEdit :=
  { e with next_file_number := some num }

/-- SetLastSequence. -/
def SetLastSequence (e : VersionEdit) (seq : Nat) : VersionEdit :=
  { e with last_sequence := some seq }

/-- SetFlushedOpId. -/
def SetFlushedOpId (e : VersionEdit) (value : OpId) : VersionEdit :=
  { e with flushed_op_id := value }

/-- SetMaxColumnFamily. -/
def SetMaxColumnFamily (e : VersionEdit) (m : Nat) : VersionEdit :=
  { e with max_column_family := some m }

/-- AddTestFile(level, fd, smallest, largest, marked_for_compaction):
asserts smallest.seqno <= largest.seqno (none models the fatal
assertion), builds a fresh FileMetaData, nulls its table reader, sets
the boundaries, sets last_op_id to OpId(1, largest.seqno), and appends. -/
def AddTestFile (e : VersionEdit) (level : Int) (fd : FileDescriptor)
    (smallest : BoundaryValues) (largest : BoundaryValues)
    (marked_for_compaction : Bool) : Option VersionEdit :=
  if smallest.seqno ≤ largest.seqno then
    let f : FileMetaData :=
      { FileMetaData.mkDefault with
          fd := { fd with table_reader := none }
          smallest := smallest
          largest := largest
          last_op_id := ⟨1, int64OfUInt64 largest.seqno⟩
          marked_for_compaction := marked_for_compaction }
    some { e with new_files := e.new_files ++ [(level, f)] }
  else none

/-- AddFile(level, f): asserts f.smallest.seqno <= f.largest.seqno
(none models the fatal assertion) and appends (level, f) verbatim. -/
def AddFile (e : VersionEdit) (level : Int) (f : FileMetaData) :
    Option VersionEdit :=
  if f.smallest.seqno ≤ f.largest.seqno then
    some { e with new_files := e.new_files ++ [(level, f)] }
  else none

/-- AddCleanedFile(level, f): asserts the seqno ordering, then copies
only fd (with the table reader nulled), boundaries, last_op_id,
marked_for_compaction and imported onto a default-constructed
FileMetaData and appends that. -/
def AddCleanedFile (e : VersionEdit) (level : Int) (f : FileMetaData) :
    Option VersionEdit :=
  if f.smallest.seqno ≤ f.largest.seqno then
    let nf : FileMetaData :=
      { FileMetaData.mkDefault with
          fd := { f.fd with table_reader := none }
          smallest := f.smallest
          largest := f.largest
          last_op_id := f.last_op_id
          marked_for_compaction := f.marked_for_compaction
          imported := f.imported }
    some { e with new_files := e.new_files ++ [(level, nf)] }
  else none

/-- DeleteFile(level, file): inserts into the deleted-file set. -/
def DeleteFile (e : VersionEdit) (level : Int) (file : Nat) : VersionEdit :=
  { e with deleted_files := dfInsert e.deleted_files (level, file) }

/-- NumEntries(): new_files_.size() + deleted_files_.size(). -/
def NumEntries (e : VersionEdit) : Nat :=
  e.new_files.length + e.deleted_files.length

/-- IsColumnFamilyAdd(): whether a column family name is set. -/
def IsColumnFamilyAdd (e : VersionEdit) : Bool :=
  e.column_family_name.isSome

/-- IsColumnFamilyManipulation(): add or drop. -/
def IsColumnFamilyManipulation (e : VersionEdit) : Bool :=
  e.IsColumnFamilyAdd || e.is_column_family_drop

/-- SetColumnFamily. -/
def SetColumnFamily (e : VersionEdit) (id : Nat) : VersionEdit :=
  { e with column_family := id }

/-- AddColumnFamily(name): asserts no drop flag, no name yet, and
NumEntries() == 0 (none models the fatal assertion), then records the
name. -/
def AddColumnFamily (e : VersionEdit) (name : List Nat) :
    Option VersionEdit :=
  if e.is_column_family_drop then none
  else if e.column_family_name.isSome then none
  else if e.NumEntries ≠ 0 then none
  else some { e with column_family_name := some name }

/-- DropColumnFamily(): asserts no drop flag, no name, and
NumEntries() == 0 (none models the fatal assertion), then sets the
drop flag. -/
def DropColumnFamily (e : VersionEdit) : Option VersionEdit :=
  if e.is_column_family_drop then none
  else if e.column_family_name.isSome then none
  else if e.NumEntries ≠ 0 then none
  else some { e with is_column_family_drop := true }

/-- GetDeletedFiles(). -/
def GetDeletedFiles (e : VersionEdit) : List (Int × Nat) :=
  e.deleted_files

/-- GetNewFiles(). -/
def GetNewFiles (e : VersionEdit) : List (Int × FileMetaData) :=
  e.new_files

end VersionEdit

/-! ## The persisted wire format, modelled from the spec.

AppendEncodedTo and DecodeFrom are defined in version_edit.cc (outside
the sources) on top of a protobuf message; the spec describes the
persisted format conceptually, not bit-exactly.  The model below
realizes that conceptual format as a concrete byte string: every
independently optional field is a presence byte followed by its value,
unsigned 64/32-bit integers are little-endian fixed-width, signed
64-bit integers are two's complement, strings and keys are
length-spread byte runs, and the file-addition and file-deletion lists
are count-prefixed.  The decoder consumes the exact bytes the encoder
produced, validates presence flags, booleans, boundary ordering and
column-family lifecycle exclusivity, and fails with a corruption error
otherwise or when bytes are missing or left over. -/

/-- Little-endian fixed-width encoding of a natural number in k bytes. -/
def encLE : Nat → Nat → List Nat
  | 0, _ => []
  | k + 1, n => n % 256 :: encLE k (n / 256)

/-- Value of a little-endian byte run. -/
def leVal : List Nat → Nat
  | [] => 0
  | b :: rest => b + 256 * leVal rest

/-- Encode a uint64. -/
def encU64 (n : Nat) : List Nat := encLE 8 n

/-- Encode a uint32. -/
def encU32 (n : Nat) : List Nat := encLE 4 n

/-- Encode a bool as one byte. -/
def encBool (b : Bool) : List Nat := [if b then 1 else 0]

/-- Encode an int64 as two's complement in 8 bytes. -/
def encInt64 (i : Int) : List Nat := encU64 (i % (2 ^ 64 : Int)).toNat

/-- Encode a byte string: length as uint64, then the raw bytes. -/
def encString (s : List Nat) : List Nat := encU64 s.length ++ s

/-- Encode an optional field: presence byte, then the value when present. -/
def encOpt (enc : α → List Nat) : Option α → List Nat
  | none => [0]
  | some a => 1 :: enc a

/-- Encode a boundary: key, then sequence number. -/
def encBoundary (b : RocksDB.BoundaryValues) : List Nat :=
  encString b.key ++ encU64 b.seqno

/-- Encode an op id: term, then index. -/
def encOpId (o : RocksDB.OpId) : List Nat :=
  encInt64 o.term ++ encInt64 o.index

/-- Encode one file-addition entry: level, packed identity, sizes,
boundaries, last op id, imported flag, compensated size, content
stats, stats-initialized flag, marked-for-compaction flag.  The
transient fields are not persisted. -/
def encFile (p : Int × RocksDB.FileMetaData) : List Nat :=
  encInt64 p.1 ++
  encU64 p.2.fd.packed_number_and_path_id ++
  encU64 p.2.fd.total_file_size ++
  encU64 p.2.fd.base_file_size ++
  encBoundary p.2.smallest ++
  encBoundary p.2.largest ++
  encOpId p.2.last_op_id ++
  encBool p.2.imported ++
  encU64 p.2.compensated_file_size ++
  encU64 p.2.num_entries ++
  encU64 p.2.num_deletions ++
  encU64 p.2.raw_key_size ++
  encU64 p.2.raw_value_size ++
  encBool p.2.init_stats_from_file ++
  encBool p.2.marked_for_compaction

/-- Encode one file-deletion entry: level, then file number. -/
def encDel (p : Int × Nat) : List Nat :=
  encInt64 p.1 ++ encU64 p.2

/-- Modelled from the spec: VersionEdit::AppendEncodedTo is defined in
version_edit.cc.  Serializes every optional field with its presence,
the always-present flushed op id, the ordered file-addition list, the
file-deletion set in its set order, the column family id and the
lifecycle fields.  The spec notes encoding cannot fail for records
built through the public mutators, so the model is total. -/
def VersionEdit.AppendEncodedTo (e : RocksDB.VersionEdit) : List Nat :=
  encOpt encString e.comparator ++
  encOpt encU64 e.log_number ++
  encOpt encU64 e.prev_log_number ++
  encOpt encU64 e.next_file_number ++
  encOpt encU32 e.max_column_family ++
  encOpt encU64 e.last_sequence ++
  encOpId e.flushed_op_id ++
  encU64 e.new_files.length ++
  (e.new_files.map encFile).flatten ++
  encU64 e.deleted_files.length ++
  (e.deleted_files.map encDel).flatten ++
  encU32 e.column_family ++
  encOpt encString e.column_family_name ++
  encBool e.is_column_family_drop

/-- The decoding computation: consumes a byte list, returns a value
and the remaining bytes, or a corruption error message. -/
def DecM (α : Type) : Type := List Nat → Except String (α × List Nat)

/-- Return without consuming. -/
def DecM.pur (a : α) : DecM α := fun l => Except.ok (a, l)

/-- Sequence two decoding computations. -/
def DecM.bind (p : DecM α) (f : α → DecM β) : DecM β := fun l =>
  match p l with
  | Except.ok (a, r) => f a r
  | Except.error msg => Except.error msg

instance : Monad DecM where
  pure := DecM.pur
  bind := DecM.bind

/-- Fail with a corruption error. -/
def decFail (msg : String) : DecM α := fun _ => Except.error msg

/-- Read one byte; corruption when the input is exhausted or the value
is not a byte. -/
def readByte : DecM Nat := fun l =>
  match l with
  | [] => Except.error "corruption: truncated record"
  | b :: rest =>
    if b < 256 then Except.ok (b, rest)
    else Except.error "corruption: malformed byte"

/-- Read exactly k bytes. -/
def readN : Nat → DecM (List Nat)
  | 0 => DecM.pur []
  | k + 1 =>
    DecM.bind readByte fun b =>
    DecM.bind (readN k) fun rest =>
    DecM.pur (b :: rest)

/-- Decode a uint64. -/
def decU64 : DecM Nat :=
  DecM.bind (readN 8) fun bs => DecM.pur (leVal bs)

/-- Decode a uint32. -/
def decU32 : DecM Nat :=
  DecM.bind (readN 4) fun bs => DecM.pur (leVal bs)

/-- Decode a bool; corruption unless the byte is 0 or 1. -/
def decBool : DecM Bool :=
  DecM.bind readByte fun b =>
  if b = 0 then DecM.pur false
  else if b = 1 then DecM.pur true
  else decFail "corruption: malformed flag"

/-- Decode an optional field from its presence byte. -/
def decOpt (p : DecM α) : DecM (Option α) :=
  DecM.bind decBool fun present =>
  if present then DecM.bind p fun a => DecM.pur (some a)
  else DecM.pur none

/-- Decode a byte string. -/
def decString : DecM (List Nat) :=
  DecM.bind decU64 fun n => readN n

/-- Decode an int64 from its two's complement image. -/
def decInt64 : DecM Int :=
  DecM.bind decU64 fun n =>
  DecM.pur (if n < 2 ^ 63 then (n : Int) else (n : Int) - 2 ^ 64)

/-- Decode a boundary. -/
def decBoundary : DecM RocksDB.BoundaryValues :=
  DecM.bind decString fun key =>
  DecM.bind decU64 fun seqno =>
  DecM.pur ⟨key, seqno⟩

/-- Decode an op id. -/
def decOpId : DecM RocksDB.OpId :=
  DecM.bind decInt64 fun t =>
  DecM.bind decInt64 fun i =>
  DecM.pur ⟨t, i⟩

/-- Decode one file-addition entry; the transient fields take their
recovery-time defaults; corruption when the boundary pair violates the
sequence ordering invariant. -/
def decFile : DecM (Int × RocksDB.FileMetaData) :=
  DecM.bind decInt64 fun level =>
  DecM.bind decU64 fun packed =>
  DecM.bind decU64 fun total =>
  DecM.bind decU64 fun base =>
  DecM.bind decBoundary fun smallest =>
  DecM.bind decBoundary fun largest =>
  if smallest.seqno ≤ largest.seqno then
    DecM.bind decOpId fun lop =>
    DecM.bind decBool fun imported =>
    DecM.bind decU64 fun comp =>
    DecM.bind decU64 fun nent =>
    DecM.bind decU64 fun ndel =>
    DecM.bind decU64 fun rks =>
    DecM.bind decU64 fun rvs =>
    DecM.bind decBool fun init =>
    DecM.bind decBool fun marked =>
    DecM.pur (level,
      { refs := 0
        fd := ⟨none, packed, total, base⟩
        being_compacted := false
        smallest := smallest
        largest := largest
        last_op_id := lop
        imported := imported
        table_reader_handle := none
        compensated_file_size := comp
        num_entries := nent
        num_deletions := ndel
        raw_key_size := rks
        raw_value_size := rvs
        init_stats_from_file := init
        marked_for_compaction := marked })
  else decFail "corruption: boundary order"

/-- Decode one file-deletion entry. -/
def decDel : DecM (Int × Nat) :=
  DecM.bind decInt64 fun level =>
  DecM.bind decU64 fun number =>
  DecM.pur (level, number)

/-- Decode a list of k entries. -/
def decListN (p : DecM α) : Nat → DecM (List α)
  | 0 => DecM.pur []
  | k + 1 =>
    DecM.bind p fun a =>
    DecM.bind (decListN p k) fun rest =>
    DecM.pur (a :: rest)

/-- The full record decoder: fields in encoding order; deletions are
re-inserted through the set; corruption when the decoded lifecycle
fields violate mutual exclusivity. -/
def decodeVersionEditCore : DecM RocksDB.VersionEdit :=
  DecM.bind (decOpt decString) fun comparator =>
  DecM.bind (decOpt decU64) fun log_number =>
  DecM.bind (decOpt decU64) fun prev_log_number =>
  DecM.bind (decOpt decU64) fun next_file_number =>
  DecM.bind (decOpt decU32) fun max_column_family =>
  DecM.bind (decOpt decU64) fun last_sequence =>
  DecM.bind decOpId fun flushed_op_id =>
  DecM.bind decU64 fun nNew =>
  DecM.bind (decListN decFile nNew) fun new_files =>
  DecM.bind decU64 fun nDel =>
  DecM.bind (decListN decDel nDel) fun dels =>
  DecM.bind decU32 fun column_family =>
  DecM.bind (decOpt decString) fun column_family_name =>
  DecM.bind decBool fun is_column_family_drop =>
  if column_family_name.isSome && is_column_family_drop then
    decFail "corruption: column family lifecycle conflict"
  else
    DecM.pur
      { max_level := 0
        comparator := comparator
        log_number := log_number
        prev_log_number := prev_log_number
        next_file_number := next_file_number
        max_column_family := max_column_family
        last_sequence := last_sequence
        flushed_op_id := flushed_op_id
        deleted_files := dels.foldl RocksDB.dfInsert []
        new_files := new_files
        column_family := column_family
        is_column_family_drop := is_column_family_drop
        column_family_name := column_family_name }

/-- Modelled from the spec: VersionEdit::DecodeFrom is defined in
version_edit.cc.  Parses the bytes into a fresh record; fails with a
corruption error on truncated or malformed input, and on trailing
bytes after a complete record.  The pluggable boundary-value extractor
decodes the auxiliary ordering value; the model inlines the standard
extractor for sequence numbers. -/
def VersionEdit.DecodeFrom (src : List Nat) :
    Except String RocksDB.VersionEdit :=
  match decodeVersionEditCore src with
  | Except.ok (v, []) => Except.ok v
  | Except.ok (_, _ :: _) => Except.error "corruption: trailing bytes"
  | Except.error msg => Except.error msg

/-- The persisted image of a FileMetaData: every recoverable field
kept, the transient fields (reference count, table reader pointer and
handle, being-compacted flag) at their recovery-time defaults. -/
def persistedFileMeta (f : FileMetaData) : FileMetaData :=
  { f with
      refs := 0
      fd := { f.fd with table_reader := none }
      being_compacted := false
      table_reader_handle := none }

/-- The persisted image of a VersionEdit: all fields kept, each new
file replaced by its persisted image. -/
def persistedEdit (e : VersionEdit) : VersionEdit :=
  { e with new_files := e.new_files.map (fun p => (p.1, persistedFileMeta p.2)) }

/-! ## Well-formedness

The representable-value side conditions a VersionEdit satisfies in the
C++ program by virtue of its field types (uint64, uint32, int, int64,
byte strings) together with the record invariants of the spec:
boundary ordering per file, set-ordered deletions, lifecycle mutual
exclusivity, and no file edits alongside a lifecycle field. -/

/-- A byte string: its length fits in a uint64 and every element is a
byte. -/
def strOK (s : List Nat) : Prop := s.length < 2 ^ 64 ∧ ∀ b ∈ s, b < 256

instance (s : List Nat) : Decidable (strOK s) := by
  unfold strOK
  infer_instance

/-- Lift a predicate over the present value of an optional field. -/
def optOK (P : α → Prop) : Option α → Prop
  | none => True
  | some a => P a

instance (P : α → Prop) [DecidablePred P] (o : Option α) :
    Decidable (optOK P o) :=
  match o with
  | none => isTrue trivial
  | some a => inferInstanceAs (Decidable (P a))

/-- An int64 value. -/
def int64OK (i : Int) : Prop := -(2 : Int) ^ 63 ≤ i ∧ i < 2 ^ 63

instance (i : Int) : Decidable (int64OK i) := by
  unfold int64OK
  infer_instance

/-- A C++ int value. -/
def int32OK (i : Int) : Prop := -(2 : Int) ^ 31 ≤ i ∧ i < 2 ^ 31

instance (i : Int) : Decidable (int32OK i) := by
  unfold int32OK
  infer_instance

/-- An op id whose components are int64 values. -/
def opIdOK (o : OpId) : Prop := int64OK o.term ∧ int64OK o.index

instance (o : OpId) : Decidable (opIdOK o) := by
  unfold opIdOK
  infer_instance

/-- A representable file-addition entry satisfying the boundary
ordering invariant. -/
def fileOK (p : Int × FileMetaData) : Prop :=
  int32OK p.1 ∧
  p.2.fd.packed_number_and_path_id < 2 ^ 64 ∧
  p.2.fd.total_file_size < 2 ^ 64 ∧
  p.2.fd.base_file_size < 2 ^ 64 ∧
  strOK p.2.smallest.key ∧ p.2.smallest.seqno < 2 ^ 64 ∧
  strOK p.2.largest.key ∧ p.2.largest.seqno < 2 ^ 64 ∧
  p.2.smallest.seqno ≤ p.2.largest.seqno ∧
  opIdOK p.2.last_op_id ∧
  p.2.compensated_file_size < 2 ^ 64 ∧
  p.2.num_entries < 2 ^ 64 ∧
  p.2.num_deletions < 2 ^ 64 ∧
  p.2.raw_key_size < 2 ^ 64 ∧
  p.2.raw_value_size < 2 ^ 64

instance (p : Int × FileMetaData) : Decidable (fileOK p) := by
  unfold fileOK
  infer_instance

/-- A representable file-deletion entry. -/
def delOK (p : Int × Nat) : Prop := int32OK p.1 ∧ p.2 < 2 ^ 64

instance (p : Int × Nat) : Decidable (delOK p) := by
  unfold delOK
  infer_instance

/-- The strict set order on deletion entries as a relation. -/
def pairLtP (a b : Int × Nat) : Prop := pairLt a b = true

instance (a b : Int × Nat) : Decidable (pairLtP a b) :=
  inferInstanceAs (Decidable (pairLt a b = true))

/-- A well-formed VersionEdit: every field representable at its C++
type, the deleted-file list in strict set order, the per-file boundary
invariant, the lifecycle mutual-exclusion invariant, no file edits
alongside a lifecycle field, and max_level still at its cleared value
(no public mutator assigns it). -/
def WellFormed (e : VersionEdit) : Prop :=
  e.max_level = 0 ∧
  optOK strOK e.comparator ∧
  optOK (fun n => n < 2 ^ 64) e.log_number ∧
  optOK (fun n => n < 2 ^ 64) e.prev_log_number ∧
  optOK (fun n => n < 2 ^ 64) e.next_file_number ∧
  optOK (fun n => n < 2 ^ 32) e.max_column_family ∧
  optOK (fun n => n < 2 ^ 64) e.last_sequence ∧
  opIdOK e.flushed_op_id ∧
  e.new_files.length < 2 ^ 64 ∧
  (∀ p ∈ e.new_files, fileOK p) ∧
  e.deleted_files.length < 2 ^ 64 ∧
  (∀ p ∈ e.deleted_files, delOK p) ∧
  List.Pairwise pairLtP e.deleted_files ∧
  e.column_family < 2 ^ 32 ∧
  optOK strOK e.column_family_name ∧
  ¬(e.column_family_name.isSome = true ∧ e.is_column_family_drop = true) ∧
  ((e.column_family_name.isSome = true ∨ e.is_column_family_drop = true) →
    e.new_files = [] ∧ e.deleted_files = [])

instance (e : VersionEdit) : Decidable (WellFormed e) := by
  unfold WellFormed
  infer_instance

/-- The validated shape of every record DecodeFrom accepts: each file
entry obeys the boundary ordering invariant, its packed identity obeys
the bit-width contract (path id at most 3) and its transient fields
are at their recovery-time defaults, and the lifecycle fields are
mutually exclusive. -/
def DecodedOK (v : VersionEdit) : Prop :=
  (∀ p ∈ v.new_files,
    p.2.smallest.seqno ≤ p.2.largest.seqno ∧
    p.2.fd.GetPathId ≤ 3 ∧
    p.2.refs = 0 ∧ p.2.fd.table_reader = none ∧
    p.2.being_compacted = false ∧ p.2.table_reader_handle = none) ∧
  ¬(v.column_family_name.isSome = true ∧ v.is_column_family_drop = true)

/-- A decoding computation that looks only at the bytes it consumes:
whenever it succeeds, the consumed bytes alone determine the result,
and the remainder can be replaced by any suffix. -/
def ParsesPure (p : DecM α) : Prop :=
  ∀ l a r, p l = Except.ok (a, r) →
    ∃ c, l = c ++ r ∧ ∀ s, p (c ++ s) = Except.ok (a, s)

/-- Boolean byte-wise lexicographic order on keys, used to state the
sorted-input precondition of UpdateBoundaries. -/
def keyLeB : List Nat → List Nat → Bool
  | [], _ => true
  | _ :: _, [] => false
  | a :: as, b :: bs => a < b || (a = b && keyLeB as bs)

/-- One UpdateBoundaries step over a (key, source) pair, for folding. -/
def ubStep (f : FileMetaData) (p : List Nat × BoundarySource) : FileMetaData :=
  f.UpdateBoundaries p.1 p.2

/-- A column-family-creation record followed by a file addition, built
through the public mutators. -/
def cfThenFile : Option VersionEdit :=
  Option.bind (VersionEdit.Clear.AddColumnFamily [97]) fun e1 =>
    e1.AddFile 0 FileMetaData.mkDefault

/-- A concrete file record used to instantiate hypotheses at witnesses. -/
def sampleFile : FileMetaData :=
  { FileMetaData.mkDefault with
      refs := 2
      fd := { FileDescriptor.make 7 2 100 40 with table_reader := some 11 }
      being_compacted := true
      smallest := ⟨[1, 2, 3], 5⟩
      largest := ⟨[9, 9], 9⟩
      last_op_id := ⟨3, 44⟩
      imported := true
      table_reader_handle := some 13
      compensated_file_size := 120
      num_entries := 12
      num_deletions := 2
      raw_key_size := 30
      raw_value_size := 70
      init_stats_from_file := true
      marked_for_compaction := true }

/-- A concrete well-formed edit used to instantiate hypotheses at
witnesses: optional fields set, one file added, two files deleted. -/
def sampleEdit : VersionEdit :=
  match ((((VersionEdit.Clear.SetLogNumber 5).SetComparatorName
      [65, 66]).DeleteFile 3 100).DeleteFile 1 7).AddFile 2 sampleFile with
  | some e => e
  | none => VersionEdit.Clear

end RocksDB

namespace RocksDB

/-! ## Facts about the deletion-set order -/

theorem dfInsert_cons (x y : Int × Nat) (ys : List (Int × Nat)) :
    dfInsert (y :: ys) x =
      if pairLt x y then x :: y :: ys
      else if x = y then y :: ys
      else y :: dfInsert ys x := rfl

theorem pairLt_iff (a b : Int × Nat) :
    pairLt a b = true ↔ a.1 < b.1 ∨ (a.1 = b.1 ∧ a.2 < b.2) := by
  simp [pairLt]

theorem pairLt_irrefl (a : Int × Nat) : pairLt a a = false := by
  simp [pairLt]

theorem pairLt_ne {a b : Int × Nat} (h : pairLt a b = true) : a ≠ b := by
  rintro rfl
  rw [pairLt_irrefl] at h
  cases h

theorem pairLt_asymm {a b : Int × Nat} (h : pairLt a b = true) :
    pairLt b a = false := by
  rw [← Bool.not_eq_true]
  intro hc
  rw [pairLt_iff] at h hc
  omega

theorem pairLt_connex {a b : Int × Nat} (h : pairLt a b = false)
    (hne : a ≠ b) : pairLt b a = true := by
  have h1 : ¬(a.1 < b.1 ∨ (a.1 = b.1 ∧ a.2 < b.2)) := by
    rw [← pairLt_iff]
    simp [h]
  have h2 : ¬(a.1 = b.1 ∧ a.2 = b.2) := by
    rw [← Prod.ext_iff]
    exact hne
  rw [pairLt_iff]
  omega

theorem pairLt_trans {a b c : Int × Nat} (h1 : pairLt a b = true)
    (h2 : pairLt b c = true) : pairLt a c = true := by
  rw [pairLt_iff] at h1 h2 ⊢
  omega

theorem dfInsert_ne_nil (l : List (Int × Nat)) (x : Int × Nat) :
    dfInsert l x ≠ [] := by
  cases l with
  | nil => simp [dfInsert]
  | cons y ys =>
    unfold dfInsert
    split
    · simp
    · split <;> simp

theorem dfInsert_mem {l : List (Int × Nat)} {x z : Int × Nat}
    (hz : z ∈ dfInsert l x) : z ∈ l ∨ z = x := by
  induction l with
  | nil => simpa [dfInsert] using hz
  | cons y ys ih =>
    unfold dfInsert at hz
    split at hz
    · rw [List.mem_cons] at hz
      rcases hz with h | h
      · exact Or.inr h
      · exact Or.inl h
    · split at hz
      · exact Or.inl hz
      · rw [List.mem_cons] at hz
        rcases hz with h | h
        · exact Or.inl (by simp [h])
        · rcases ih h with h2 | h2
          · exact Or.inl (List.mem_cons_of_mem y h2)
          · exact Or.inr h2

theorem dfInsert_pairwise {l : List (Int × Nat)} {x : Int × Nat}
    (h : List.Pairwise pairLtP l) :
    List.Pairwise pairLtP (dfInsert l x) := by
  induction l with
  | nil => simp [dfInsert, List.pairwise_singleton]
  | cons y ys ih =>
    rw [List.pairwise_cons] at h
    rcases h with ⟨hy, hys⟩
    unfold dfInsert
    split
    · rename_i hlt
      refine List.Pairwise.cons ?_ (List.Pairwise.cons hy hys)
      intro z hz
      rw [List.mem_cons] at hz
      rcases hz with h | h
      · subst h
        exact hlt
      · exact pairLt_trans hlt (hy z h)
    · split
      · exact List.Pairwise.cons hy hys
      · rename_i hnlt hne
        refine List.Pairwise.cons ?_ (ih hys)
        intro z hz
        rcases dfInsert_mem hz with h1 | h1
        · exact hy z h1
        · subst h1
          exact pairLt_connex (Bool.eq_false_iff.mpr hnlt) hne

theorem dfInsert_idem (l : List (Int × Nat)) (x : Int × Nat) :
    dfInsert (dfInsert l x) x = dfInsert l x := by
  induction l with
  | nil => simp [dfInsert, pairLt_irrefl]
  | cons y ys ih =>
    by_cases h1 : pairLt x y = true
    · rw [dfInsert_cons, if_pos h1, dfInsert_cons,
        if_neg (by simp [pairLt_irrefl]), if_pos rfl]
    · by_cases h2 : x = y
      · subst h2
        rw [dfInsert_cons, if_neg h1, if_pos rfl, dfInsert_cons,
          if_neg h1, if_pos rfl]
      · rw [dfInsert_cons, if_neg h1, if_neg h2, dfInsert_cons,
          if_neg h1, if_neg h2, ih]

theorem pairwise_pairLt_nodup {l : List (Int × Nat)}
    (h : List.Pairwise pairLtP l) : l.Nodup :=
  h.imp (fun hab => pairLt_ne hab)

theorem dfInsert_append_of_forall_lt {l : List (Int × Nat)}
    {x : Int × Nat} (h : ∀ y ∈ l, pairLt y x = true) :
    dfInsert l x = l ++ [x] := by
  induction l with
  | nil => simp [dfInsert]
  | cons y ys ih =>
    have hy : pairLt y x = true := h y (List.mem_cons_self y ys)
    unfold dfInsert
    rw [if_neg (by simp [pairLt_asymm hy]),
        if_neg (Ne.symm (pairLt_ne hy)), ih (fun z hz => h z (List.mem_cons_of_mem y hz))]
    simp

theorem foldl_dfInsert_eq_append {l : List (Int × Nat)} :
    ∀ acc : List (Int × Nat),
      List.Pairwise pairLtP (acc ++ l) →
      List.foldl dfInsert acc l = acc ++ l := by
  induction l with
  | nil => intro acc _; simp
  | cons b bs ih =>
    intro acc hacc
    have hblock : ∀ y ∈ acc, pairLt y b = true := by
      intro y hy
      have := (List.pairwise_append.mp hacc).2.2 y hy b (List.mem_cons_self b bs)
      exact this
    have hstep : dfInsert acc b = acc ++ [b] := dfInsert_append_of_forall_lt hblock
    have hrest : List.Pairwise pairLtP ((acc ++ [b]) ++ bs) := by
      simpa [List.append_assoc] using hacc
    calc List.foldl dfInsert acc (b :: bs)
        = List.foldl dfInsert (dfInsert acc b) bs := rfl
      _ = List.foldl dfInsert (acc ++ [b]) bs := by rw [hstep]
      _ = (acc ++ [b]) ++ bs := ih (acc ++ [b]) hrest
      _ = acc ++ b :: bs := by simp

theorem foldl_dfInsert_self {l : List (Int × Nat)}
    (h : List.Pairwise pairLtP l) :
    List.foldl dfInsert [] l = l := by
  simpa using foldl_dfInsert_eq_append [] (by simpa using h)

end RocksDB

namespace RocksDB

/-! ## Facts about boundary updates -/

theorem foldl_ubStep_smallest (l : List (List Nat × BoundarySource)) :
    ∀ f : FileMetaData, f.smallest.key ≠ [] →
      (List.foldl ubStep f l).smallest = f.smallest := by
  induction l with
  | nil => intro f _; rfl
  | cons q qs ih =>
    intro f hf
    have h1 : ubStep f q = { f with largest := deriveBoundary q.1 q.2 } := by
      simp [ubStep, FileMetaData.UpdateBoundaries, hf]
    rw [List.foldl_cons, ih _ (by rw [h1]; exact hf), h1]

theorem foldl_ubStep_largest (l : List (List Nat × BoundarySource)) :
    ∀ (f : FileMetaData) (p : List Nat × BoundarySource),
      l.getLast? = some p →
      (List.foldl ubStep f l).largest = deriveBoundary p.1 p.2 := by
  induction l with
  | nil =>
    intro f p hp
    simp at hp
  | cons q qs ih =>
    intro f p hp
    cases qs with
    | nil =>
      simp [List.getLast?] at hp
      subst hp
      rfl
    | cons r rs =>
      rw [List.getLast?_cons_cons] at hp
      rw [List.foldl_cons]
      exact ih (ubStep f q) p hp

/-! ## Claim theorems for the mutation contract -/

/-- C2: Identity packing bijection: for every fileNumber in
[0, 2 to the 62 minus 1] and every pathId in [0, 3], constructing a
FileDescriptor from (fileNumber, pathId) and unpacking yields
GetNumber() == fileNumber and GetPathId() == pathId, where packing
combines them as pathId * (kFileNumberMask + 1) + fileNumber and
unpacking is (packed & kFileNumberMask) and
(packed / (kFileNumberMask + 1)). -/
theorem pack_unpack_bijection (number path_id total base : Nat)
    (hn : number ≤ 2 ^ 62 - 1) (hp : path_id ≤ 3) :
    (FileDescriptor.make number path_id total base).GetNumber = number ∧
    (FileDescriptor.make number path_id total base).GetPathId = path_id := by
  have hmask : kFileNumberMask = 2 ^ 62 - 1 := by norm_num [kFileNumberMask]
  constructor
  · show Nat.land (PackFileNumberAndPathId number path_id) kFileNumberMask = number
    have hstep : Nat.land (PackFileNumberAndPathId number path_id) (2 ^ 62 - 1) =
        PackFileNumberAndPathId number path_id % 2 ^ 62 :=
      Nat.and_pow_two_sub_one_eq_mod _ 62
    rw [hmask, hstep]
    unfold PackFileNumberAndPathId
    rw [hmask]
    omega
  · show (PackFileNumberAndPathId number path_id / (kFileNumberMask + 1)) % 2 ^ 32 = path_id
    unfold PackFileNumberAndPathId
    rw [hmask]
    omega

/-- Witness for C2 at fileNumber 7, pathId 2. -/
theorem pack_unpack_bijection_witness :
    (FileDescriptor.make 7 2 100 40).GetNumber = 7 ∧
    (FileDescriptor.make 7 2 100 40).GetPathId = 2 :=
  pack_unpack_bijection 7 2 100 40 (by norm_num) (by norm_num)

/-- C3 counterexample: AddColumnFamily followed by AddFile is accepted
silently, producing a single record that holds both a column-family
name and a file addition; the claim that AddFile after a lifecycle
call fails fast is false on the code (AddFile asserts only the
boundary order). -/
theorem cf_then_addfile_accepted :
    cfThenFile.isSome = true ∧
    cfThenFile.map VersionEdit.IsColumnFamilyAdd = some true ∧
    cfThenFile.map VersionEdit.NumEntries = some 1 := by
  refine ⟨rfl, rfl, rfl⟩

/-- C3 (amended): the guard is one-directional. AddColumnFamily and
DropColumnFamily fail fast when the record already carries file edits
or a lifecycle field, but AddFile performs no lifecycle check (it only
asserts boundary order) and DeleteFile performs no check at all, so a
record built by AddColumnFamily followed by AddFile silently holds
both a lifecycle field and file edits. -/
theorem cf_lifecycle_guard_one_directional (e : VersionEdit)
    (name : List Nat) (level : Int) (f : FileMetaData) (file : Nat) :
    (e.NumEntries ≠ 0 →
      e.AddColumnFamily name = none ∧ e.DropColumnFamily = none) ∧
    (e.IsColumnFamilyManipulation = true →
      e.AddColumnFamily name = none ∧ e.DropColumnFamily = none) ∧
    (f.smallest.seqno ≤ f.largest.seqno →
      (e.AddFile level f).isSome = true) ∧
    (e.DeleteFile level file).deleted_files ≠ [] := by
  refine ⟨fun h => ⟨?_, ?_⟩, fun h => ⟨?_, ?_⟩, fun h => ?_, dfInsert_ne_nil _ _⟩
  · unfold VersionEdit.AddColumnFamily
    split_ifs <;> simp_all
  · unfold VersionEdit.DropColumnFamily
    split_ifs <;> simp_all
  · unfold VersionEdit.IsColumnFamilyManipulation VersionEdit.IsColumnFamilyAdd at h
    rw [Bool.or_eq_true] at h
    unfold VersionEdit.AddColumnFamily
    split_ifs <;> simp_all
  · unfold VersionEdit.IsColumnFamilyManipulation VersionEdit.IsColumnFamilyAdd at h
    rw [Bool.or_eq_true] at h
    unfold VersionEdit.DropColumnFamily
    split_ifs <;> simp_all
  · unfold VersionEdit.AddFile
    rw [if_pos h]
    rfl

/-- Witness for the amended C3: a record with three entries rejects
both lifecycle calls, and a record accepts AddFile regardless. -/
theorem cf_lifecycle_guard_one_directional_witness :
    sampleEdit.AddColumnFamily [97] = none ∧
    sampleEdit.DropColumnFamily = none ∧
    (sampleEdit.AddFile 0 sampleFile).isSome = true := by
  have h := cf_lifecycle_guard_one_directional sampleEdit [97] 0 sampleFile 5
  exact ⟨(h.1 (by decide)).1, (h.1 (by decide)).2, h.2.2.1 (by decide)⟩

/-- C4: the boundary-order precondition on file addition: a file whose
smallest sequence number exceeds its largest hits the fatal-assertion
path of AddFile, AddCleanedFile and AddTestFile and is never appended;
under the precondition the append succeeds. -/
theorem addfile_boundary_assertion (e : VersionEdit) (level : Int)
    (f : FileMetaData) (fd : FileDescriptor) (sm lg : BoundaryValues)
    (m : Bool) :
    (f.largest.seqno < f.smallest.seqno →
      e.AddFile level f = none ∧ e.AddCleanedFile level f = none) ∧
    (lg.seqno < sm.seqno → e.AddTestFile level fd sm lg m = none) ∧
    (f.smallest.seqno ≤ f.largest.seqno →
      e.AddFile level f =
        some { e with new_files := e.new_files ++ [(level, f)] } ∧
      (e.AddCleanedFile level f).isSome = true) ∧
    (sm.seqno ≤ lg.seqno → (e.AddTestFile level fd sm lg m).isSome = true) := by
  refine ⟨fun h => ⟨?_, ?_⟩, fun h => ?_, fun h => ⟨?_, ?_⟩, fun h => ?_⟩
  · unfold VersionEdit.AddFile
    rw [if_neg (by omega)]
  · unfold VersionEdit.AddCleanedFile
    rw [if_neg (by omega)]
  · unfold VersionEdit.AddTestFile
    rw [if_neg (by omega)]
  · unfold VersionEdit.AddFile
    rw [if_pos h]
  · unfold VersionEdit.AddCleanedFile
    rw [if_pos h]
    rfl
  · unfold VersionEdit.AddTestFile
    rw [if_pos h]
    rfl

/-- Witness for C4: a good file is appended, an inverted boundary pair
is rejected. -/
theorem addfile_boundary_assertion_witness :
    VersionEdit.Clear.AddFile 2 sampleFile =
      some { VersionEdit.Clear with
               new_files := VersionEdit.Clear.new_files ++ [(2, sampleFile)] } ∧
    VersionEdit.Clear.AddTestFile 0 FileDescriptor.default0
      ⟨[1], 9⟩ ⟨[2], 5⟩ false = none := by
  have h := addfile_boundary_assertion VersionEdit.Clear 2 sampleFile
    FileDescriptor.default0 ⟨[1], 9⟩ ⟨[2], 5⟩ false
  exact ⟨(h.2.2.1 (by decide)).1, h.2.1 (by decide)⟩

/-- C6: DeleteFile has set semantics: inserting the same
(level, fileNumber) twice equals inserting it once, the deletion set
stays strictly ordered (hence duplicate-free) under every DeleteFile,
and the concrete double deletion of (3, 100) yields one entry. -/
theorem deletefile_set_semantics (e : VersionEdit) (level : Int)
    (file : Nat) (h : List.Pairwise pairLtP e.deleted_files) :
    (e.DeleteFile level file).DeleteFile level file =
      e.DeleteFile level file ∧
    List.Pairwise pairLtP (e.DeleteFile level file).deleted_files ∧
    ((e.DeleteFile level file).deleted_files).Nodup ∧
    ((VersionEdit.Clear.DeleteFile 3 100).DeleteFile 3 100).GetDeletedFiles.length = 1 := by
  refine ⟨?_, dfInsert_pairwise h,
    pairwise_pairLt_nodup (dfInsert_pairwise h), by decide⟩
  unfold VersionEdit.DeleteFile
  simp [dfInsert_idem]

/-- Witness for C6 at a record already holding deletions. -/
theorem deletefile_set_semantics_witness :
    (sampleEdit.DeleteFile 3 100).DeleteFile 3 100 =
      sampleEdit.DeleteFile 3 100 ∧
    ((sampleEdit.DeleteFile 3 100).deleted_files).Nodup := by
  have h := deletefile_set_semantics sampleEdit 3 100 (by decide)
  exact ⟨h.1, h.2.2.1⟩

/-- C7: AddCleanedFile strips transient state: the stored record keeps
the file descriptor identity and sizes (table reader nulled), the
boundaries, last_op_id, imported and marked_for_compaction of its
argument, while refs, being_compacted, the reader handle, the
compensated size and the in-flight statistics are the
default-constructed values. -/
theorem addcleanedfile_strips_transients (e : VersionEdit) (level : Int)
    (f : FileMetaData) (h : f.smallest.seqno ≤ f.largest.seqno) :
    e.AddCleanedFile level f =
      some { e with new_files := e.new_files ++
        [(level,
          { refs := 0
            fd := { f.fd with table_reader := none }
            being_compacted := false
            smallest := f.smallest
            largest := f.largest
            last_op_id := f.last_op_id
            imported := f.imported
            table_reader_handle := none
            compensated_file_size := 0
            num_entries := 0
            num_deletions := 0
            raw_key_size := 0
            raw_value_size := 0
            init_stats_from_file := false
            marked_for_compaction := f.marked_for_compaction })] } := by
  unfold VersionEdit.AddCleanedFile
  rw [if_pos h]
  rfl

/-- Witness for C7 at a file carrying live-process state. -/
theorem addcleanedfile_strips_transients_witness :
    VersionEdit.Clear.AddCleanedFile 1 sampleFile =
      some { VersionEdit.Clear with
               new_files := VersionEdit.Clear.new_files ++
        [(1,
          { refs := 0
            fd := { sampleFile.fd with table_reader := none }
            being_compacted := false
            smallest := sampleFile.smallest
            largest := sampleFile.largest
            last_op_id := sampleFile.last_op_id
            imported := sampleFile.imported
            table_reader_handle := none
            compensated_file_size := 0
            num_entries := 0
            num_deletions := 0
            raw_key_size := 0
            raw_value_size := 0
            init_stats_from_file := false
            marked_for_compaction := sampleFile.marked_for_compaction })] } :=
  addcleanedfile_strips_transients VersionEdit.Clear 1 sampleFile (by decide)

/-- C8: boundary monotonicity of UpdateBoundaries: feeding a nonempty
sequence of (key, source) pairs with nonempty keys in non-decreasing
key order to a fresh FileMetaData leaves smallest equal to the
boundary derived from the first pair and largest equal to the boundary
derived from the last pair. -/
theorem updateboundaries_first_last (f0 : FileMetaData)
    (kss : List (List Nat × BoundarySource))
    (h0 : f0.smallest.key = [])
    (hne : kss ≠ [])
    (hkeys : ∀ p ∈ kss, p.1 ≠ [])
    (hsorted : List.Chain' (fun a b => keyLeB a.1 b.1 = true) kss) :
    (∀ p, kss.head? = some p →
      (List.foldl ubStep f0 kss).smallest = deriveBoundary p.1 p.2) ∧
    (∀ p, kss.getLast? = some p →
      (List.foldl ubStep f0 kss).largest = deriveBoundary p.1 p.2) := by
  cases kss with
  | nil => exact absurd rfl hne
  | cons q qs =>
    constructor
    · intro p hp
      rw [List.head?_cons] at hp
      injection hp with hp
      subst hp
      rw [List.foldl_cons]
      have hq : (ubStep f0 q).smallest = deriveBoundary q.1 q.2 := by
        simp [ubStep, FileMetaData.UpdateBoundaries, h0]
      have hkey : (ubStep f0 q).smallest.key ≠ [] := by
        rw [hq]
        exact hkeys q (List.mem_cons_self q qs)
      rw [foldl_ubStep_smallest qs (ubStep f0 q) hkey, hq]
    · intro p hp
      exact foldl_ubStep_largest (q :: qs) f0 p hp

/-- Witness for C8 over a two-key sorted sequence. -/
theorem updateboundaries_first_last_witness :
    (List.foldl ubStep FileMetaData.mkDefault
      [([1], ⟨5⟩), ([2], ⟨7⟩)]).smallest = ⟨[1], 5⟩ ∧
    (List.foldl ubStep FileMetaData.mkDefault
      [([1], ⟨5⟩), ([2], ⟨7⟩)]).largest = ⟨[2], 7⟩ := by
  have h := updateboundaries_first_last FileMetaData.mkDefault
    [([1], ⟨5⟩), ([2], ⟨7⟩)] rfl (by decide) (by decide)
    (by simp [List.chain'_cons, keyLeB])
  exact ⟨h.1 ([1], ⟨5⟩) rfl, h.2 ([2], ⟨7⟩) rfl⟩

/-- C9: NumEntries counts additions plus deletions, and the concrete
scenario: AddFile(2, record) on a fresh record yields NumEntries 1 and
GetNewFiles [(2, record)]. -/
theorem numentries_counts (e : VersionEdit) (f : FileMetaData)
    (h : f.smallest.seqno ≤ f.largest.seqno) :
    e.NumEntries = e.GetNewFiles.length + e.GetDeletedFiles.length ∧
    ∀ e2, VersionEdit.Clear.AddFile 2 f = some e2 →
      e2.NumEntries = 1 ∧ e2.GetNewFiles = [(2, f)] := by
  refine ⟨rfl, ?_⟩
  intro e2 h2
  unfold VersionEdit.AddFile at h2
  rw [if_pos h] at h2
  cases h2
  exact ⟨rfl, rfl⟩

/-- Witness for C9 at a populated record and the concrete scenario
file. -/
theorem numentries_counts_witness :
    sampleEdit.NumEntries =
      sampleEdit.GetNewFiles.length + sampleEdit.GetDeletedFiles.length ∧
    ∀ e2, VersionEdit.Clear.AddFile 2 sampleFile = some e2 →
      e2.NumEntries = 1 ∧ e2.GetNewFiles = [(2, sampleFile)] :=
  numentries_counts sampleEdit sampleFile (by decide)

/-- C10: AddFile stores its argument verbatim, live-process state
included (the appended pair is (level, f) itself), whereas
AddCleanedFile and AddTestFile both null out the stored table reader
pointer. -/
theorem addfile_verbatim (e : VersionEdit) (level : Int)
    (f : FileMetaData) (fd : FileDescriptor) (sm lg : BoundaryValues)
    (m : Bool) (h : f.smallest.seqno ≤ f.largest.seqno)
    (h2 : sm.seqno ≤ lg.seqno) :
    e.AddFile level f =
      some { e with new_files := e.new_files ++ [(level, f)] } ∧
    (∀ e2, e.AddCleanedFile level f = some e2 →
      e2.new_files.getLast?.map (fun p => p.2.fd.table_reader) = some none) ∧
    (∀ e2, e.AddTestFile level fd sm lg m = some e2 →
      e2.new_files.getLast?.map (fun p => p.2.fd.table_reader) = some none) := by
  refine ⟨?_, ?_, ?_⟩
  · unfold VersionEdit.AddFile
    rw [if_pos h]
  · intro e2 he
    unfold VersionEdit.AddCleanedFile at he
    rw [if_pos h] at he
    cases he
    simp [List.getLast?_concat]
  · intro e2 he
    unfold VersionEdit.AddTestFile at he
    rw [if_pos h2] at he
    cases he
    simp [List.getLast?_concat]

/-- Witness for C10: the verbatim append at a file carrying a live
table reader pointer. -/
theorem addfile_verbatim_witness :
    VersionEdit.Clear.AddFile 2 sampleFile =
      some { VersionEdit.Clear with
               new_files := VersionEdit.Clear.new_files ++ [(2, sampleFile)] } ∧
    sampleFile.fd.table_reader = some 11 := by
  have h := addfile_verbatim VersionEdit.Clear 2 sampleFile
    FileDescriptor.default0 ⟨[1], 3⟩ ⟨[2], 4⟩ true (by decide) (by decide)
  exact ⟨h.1, rfl⟩

end RocksDB

namespace RocksDB

/-! ## Round-trip facts about the wire format -/

theorem DecM.bind_step {p : DecM α} {f : α → DecM β} {l r : List Nat}
    {a : α} {out : Except String (β × List Nat)}
    (hp : p l = Except.ok (a, r)) (hf : f a r = out) :
    DecM.bind p f l = out := by
  unfold DecM.bind
  rw [hp]
  exact hf

theorem int64OK_of_int32OK {i : Int} (h : int32OK i) : int64OK i := by
  obtain ⟨h1, h2⟩ := h
  exact ⟨by omega, by omega⟩

theorem encLE_length (k n : Nat) : (encLE k n).length = k := by
  induction k generalizing n with
  | zero => rfl
  | succ k ih => simp [encLE, ih]

theorem encLE_bytes (k n : Nat) : ∀ b ∈ encLE k n, b < 256 := by
  induction k generalizing n with
  | zero => intro b hb; simp [encLE] at hb
  | succ k ih =>
    intro b hb
    unfold encLE at hb
    rw [List.mem_cons] at hb
    rcases hb with hb | hb
    · subst hb
      omega
    · exact ih (n / 256) b hb

theorem leVal_encLE (k n : Nat) (h : n < 256 ^ k) : leVal (encLE k n) = n := by
  induction k generalizing n with
  | zero =>
    have : n = 0 := by simpa using h
    subst this
    rfl
  | succ k ih =>
    unfold encLE leVal
    rw [ih (n / 256) (by rw [pow_succ] at h; omega)]
    omega

theorem readN_append (l rest : List Nat) (hb : ∀ b ∈ l, b < 256) :
    readN l.length (l ++ rest) = Except.ok (l, rest) := by
  induction l with
  | nil => rfl
  | cons b bs ih =>
    show readN (bs.length + 1) ((b :: bs) ++ rest) = _
    unfold readN
    refine DecM.bind_step (a := b) (r := bs ++ rest) ?_ ?_
    · show readByte (b :: (bs ++ rest)) = Except.ok (b, bs ++ rest)
      simp [readByte, hb b (List.mem_cons_self b bs)]
    · refine DecM.bind_step (ih (fun x hx => hb x (List.mem_cons_of_mem b hx))) ?_
      rfl

theorem decU64_enc (n : Nat) (h : n < 2 ^ 64) :
    ∀ rest, decU64 (encU64 n ++ rest) = Except.ok (n, rest) := by
  intro rest
  unfold decU64 encU64
  refine DecM.bind_step (a := encLE 8 n) (r := rest) ?_ ?_
  · have hl : (encLE 8 n).length = 8 := encLE_length 8 n
    have hr := readN_append (encLE 8 n) rest (encLE_bytes 8 n)
    rwa [hl] at hr
  · show DecM.pur (leVal (encLE 8 n)) rest = _
    rw [leVal_encLE 8 n (by
      have h8 : (256 : Nat) ^ 8 = 2 ^ 64 := by norm_num
      omega)]
    rfl

theorem decU32_enc (n : Nat) (h : n < 2 ^ 32) :
    ∀ rest, decU32 (encU32 n ++ rest) = Except.ok (n, rest) := by
  intro rest
  unfold decU32 encU32
  refine DecM.bind_step (a := encLE 4 n) (r := rest) ?_ ?_
  · have hl : (encLE 4 n).length = 4 := encLE_length 4 n
    have hr := readN_append (encLE 4 n) rest (encLE_bytes 4 n)
    rwa [hl] at hr
  · show DecM.pur (leVal (encLE 4 n)) rest = _
    rw [leVal_encLE 4 n (by
      have h4 : (256 : Nat) ^ 4 = 2 ^ 32 := by norm_num
      omega)]
    rfl

theorem decBool_enc (b : Bool) :
    ∀ rest, decBool (encBool b ++ rest) = Except.ok (b, rest) := by
  intro rest
  cases b <;> rfl

theorem decInt64_enc (i : Int) (h : int64OK i) :
    ∀ rest, decInt64 (encInt64 i ++ rest) = Except.ok (i, rest) := by
  intro rest
  obtain ⟨h1, h2⟩ := h
  have hm0 : 0 ≤ i % (2 ^ 64 : Int) := Int.emod_nonneg i (by norm_num)
  have hm1 : i % (2 ^ 64 : Int) < 2 ^ 64 := Int.emod_lt_of_pos i (by norm_num)
  have hlt : (i % (2 ^ 64 : Int)).toNat < 2 ^ 64 := by omega
  unfold decInt64 encInt64
  refine DecM.bind_step (decU64_enc _ hlt rest) ?_
  show DecM.pur _ rest = _
  have hval : (if (i % (2 ^ 64 : Int)).toNat < 2 ^ 63
      then ((i % (2 ^ 64 : Int)).toNat : Int)
      else ((i % (2 ^ 64 : Int)).toNat : Int) - 2 ^ 64) = i := by
    split <;> omega
  rw [hval]
  rfl

theorem decString_enc (s : List Nat) (h : strOK s) :
    ∀ rest, decString (encString s ++ rest) = Except.ok (s, rest) := by
  intro rest
  obtain ⟨hlen, hbytes⟩ := h
  unfold decString encString
  rw [List.append_assoc]
  refine DecM.bind_step (decU64_enc _ hlen _) ?_
  exact readN_append s rest hbytes

theorem decOpt_enc {p : DecM α} {enc : α → List Nat} {o : Option α}
    (hval : ∀ a, o = some a → ∀ r, p (enc a ++ r) = Except.ok (a, r)) :
    ∀ rest, decOpt p (encOpt enc o ++ rest) = Except.ok (o, rest) := by
  intro rest
  cases o with
  | none => rfl
  | some a =>
    show decOpt p ((1 :: enc a) ++ rest) = _
    unfold decOpt
    refine DecM.bind_step (a := true) (r := enc a ++ rest) rfl ?_
    show (if true = true then DecM.bind p (fun a2 => DecM.pur (some a2))
      else DecM.pur none) (enc a ++ rest) = _
    rw [if_pos rfl]
    refine DecM.bind_step (hval a rfl rest) ?_
    rfl

theorem decBoundary_enc (b : BoundaryValues) (hk : strOK b.key)
    (hs : b.seqno < 2 ^ 64) :
    ∀ rest, decBoundary (encBoundary b ++ rest) = Except.ok (b, rest) := by
  intro rest
  unfold decBoundary encBoundary
  rw [List.append_assoc]
  refine DecM.bind_step (decString_enc _ hk _) ?_
  refine DecM.bind_step (decU64_enc _ hs _) ?_
  rfl

theorem decOpId_enc (o : OpId) (h : opIdOK o) :
    ∀ rest, decOpId (encOpId o ++ rest) = Except.ok (o, rest) := by
  intro rest
  unfold decOpId encOpId
  rw [List.append_assoc]
  refine DecM.bind_step (decInt64_enc _ h.1 _) ?_
  refine DecM.bind_step (decInt64_enc _ h.2 _) ?_
  rfl

theorem decFile_enc (p : Int × FileMetaData) (h : fileOK p) :
    ∀ rest, decFile (encFile p ++ rest) =
      Except.ok ((p.1, persistedFileMeta p.2), rest) := by
  obtain ⟨hlv, hpk, htt, hbs, hsk, hss, hlk, hls, hseq, hlop, hcomp, hne,
    hnd, hrk, hrv⟩ := h
  intro rest
  unfold decFile encFile
  simp only [List.append_assoc]
  refine DecM.bind_step (decInt64_enc _ (int64OK_of_int32OK hlv) _) ?_
  refine DecM.bind_step (decU64_enc _ hpk _) ?_
  refine DecM.bind_step (decU64_enc _ htt _) ?_
  refine DecM.bind_step (decU64_enc _ hbs _) ?_
  refine DecM.bind_step (decBoundary_enc _ hsk hss _) ?_
  refine DecM.bind_step (decBoundary_enc _ hlk hls _) ?_
  rw [if_pos hseq]
  refine DecM.bind_step (decOpId_enc _ hlop _) ?_
  refine DecM.bind_step (decBool_enc _ _) ?_
  refine DecM.bind_step (decU64_enc _ hcomp _) ?_
  refine DecM.bind_step (decU64_enc _ hne _) ?_
  refine DecM.bind_step (decU64_enc _ hnd _) ?_
  refine DecM.bind_step (decU64_enc _ hrk _) ?_
  refine DecM.bind_step (decU64_enc _ hrv _) ?_
  refine DecM.bind_step (decBool_enc _ _) ?_
  refine DecM.bind_step (decBool_enc _ _) ?_
  rfl

theorem decDel_enc (p : Int × Nat) (h : delOK p) :
    ∀ rest, decDel (encDel p ++ rest) = Except.ok (p, rest) := by
  intro rest
  unfold decDel encDel
  rw [List.append_assoc]
  refine DecM.bind_step (decInt64_enc _ (int64OK_of_int32OK h.1) _) ?_
  refine DecM.bind_step (decU64_enc _ h.2 _) ?_
  rfl

theorem decListN_enc {p : DecM α} {enc : β → List Nat} {g : β → α}
    (l : List β)
    (h : ∀ b ∈ l, ∀ r, p (enc b ++ r) = Except.ok (g b, r)) :
    ∀ rest, decListN p l.length ((l.map enc).flatten ++ rest) =
      Except.ok (l.map g, rest) := by
  induction l with
  | nil => intro rest; rfl
  | cons b bs ih =>
    intro rest
    show decListN p (bs.length + 1) (((b :: bs).map enc).flatten ++ rest) = _
    unfold decListN
    rw [List.map_cons, List.flatten_cons, List.append_assoc]
    refine DecM.bind_step (h b (List.mem_cons_self b bs) _) ?_
    refine DecM.bind_step (ih (fun x hx r => h x (List.mem_cons_of_mem b hx) r) _) ?_
    rfl

theorem decOptStr_enc {o : Option (List Nat)} (h : optOK strOK o) :
    ∀ rest, decOpt decString (encOpt encString o ++ rest) =
      Except.ok (o, rest) :=
  decOpt_enc (fun a ha r => decString_enc a (by rw [ha] at h; exact h) r)

theorem decOptU64_enc {o : Option Nat} (h : optOK (fun n => n < 2 ^ 64) o) :
    ∀ rest, decOpt decU64 (encOpt encU64 o ++ rest) = Except.ok (o, rest) :=
  decOpt_enc (fun a ha r => decU64_enc a (by rw [ha] at h; exact h) r)

theorem decOptU32_enc {o : Option Nat} (h : optOK (fun n => n < 2 ^ 32) o) :
    ∀ rest, decOpt decU32 (encOpt encU32 o ++ rest) = Except.ok (o, rest) :=
  decOpt_enc (fun a ha r => decU32_enc a (by rw [ha] at h; exact h) r)

theorem decFiles_enc {l : List (Int × FileMetaData)}
    (h : ∀ p ∈ l, fileOK p) :
    ∀ rest, decListN decFile l.length ((l.map encFile).flatten ++ rest) =
      Except.ok (l.map (fun p => (p.1, persistedFileMeta p.2)), rest) :=
  decListN_enc l (fun p hp r => decFile_enc p (h p hp) r)

theorem decDels_enc {l : List (Int × Nat)} (h : ∀ p ∈ l, delOK p) :
    ∀ rest, decListN decDel l.length ((l.map encDel).flatten ++ rest) =
      Except.ok (l, rest) := by
  intro rest
  have hstep := decListN_enc (g := fun p => p) l
    (fun p hp r => decDel_enc p (h p hp) r) rest
  simpa using hstep

theorem roundtrip_core (e : VersionEdit) (h : WellFormed e) :
    decodeVersionEditCore e.AppendEncodedTo =
      Except.ok (persistedEdit e, []) := by
  obtain ⟨hml, hcmp, hlog, hprev, hnext, hmaxcf, hlast, hop, hnlen, hnfiles,
    hdlen, hdels, hdsort, hcf, hcfname, hexcl, hpure⟩ := h
  have hdrop : decBool (encBool e.is_column_family_drop) =
      Except.ok (e.is_column_family_drop, []) := by
    have hb := decBool_enc e.is_column_family_drop []
    rwa [List.append_nil] at hb
  have hcond : ¬(e.column_family_name.isSome && e.is_column_family_drop) = true := by
    rw [Bool.and_eq_true]
    exact hexcl
  unfold decodeVersionEditCore VersionEdit.AppendEncodedTo
  simp only [List.append_assoc]
  refine DecM.bind_step (decOptStr_enc hcmp _) ?_
  refine DecM.bind_step (decOptU64_enc hlog _) ?_
  refine DecM.bind_step (decOptU64_enc hprev _) ?_
  refine DecM.bind_step (decOptU64_enc hnext _) ?_
  refine DecM.bind_step (decOptU32_enc hmaxcf _) ?_
  refine DecM.bind_step (decOptU64_enc hlast _) ?_
  refine DecM.bind_step (decOpId_enc _ hop _) ?_
  refine DecM.bind_step (decU64_enc _ hnlen _) ?_
  refine DecM.bind_step (decFiles_enc hnfiles _) ?_
  refine DecM.bind_step (decU64_enc _ hdlen _) ?_
  refine DecM.bind_step (decDels_enc hdels _) ?_
  refine DecM.bind_step (decU32_enc _ hcf _) ?_
  refine DecM.bind_step (decOptStr_enc hcfname _) ?_
  refine DecM.bind_step hdrop ?_
  rw [if_neg hcond]
  show Except.ok _ = _
  rw [foldl_dfInsert_self hdsort]
  simp [persistedEdit, hml]

end RocksDB

namespace RocksDB

/-! ## The decoder looks only at the bytes it consumes -/

theorem DecM.bind_ok {p : DecM α} {f : α → DecM β} {l : List Nat}
    {z : β × List Nat} :
    DecM.bind p f l = Except.ok z ↔
      ∃ a r, p l = Except.ok (a, r) ∧ f a r = Except.ok z := by
  constructor
  · intro h
    unfold DecM.bind at h
    rcases hp : p l with msg | pr
    · rw [hp] at h
      cases h
    · obtain ⟨a, r⟩ := pr
      rw [hp] at h
      exact ⟨a, r, rfl, h⟩
  · rintro ⟨a, r, h1, h2⟩
    unfold DecM.bind
    rw [h1]
    exact h2

theorem parsesPure_pur (a : α) : ParsesPure (DecM.pur a) := by
  intro l x r h
  unfold DecM.pur at h
  injection h with h
  injection h with h1 h2
  subst h1
  subst h2
  exact ⟨[], rfl, fun s => rfl⟩

theorem parsesPure_fail (msg : String) : ParsesPure (decFail msg : DecM α) := by
  intro l a r h
  exact Except.noConfusion h

theorem parsesPure_readByte : ParsesPure readByte := by
  intro l a r h
  cases l with
  | nil => exact Except.noConfusion h
  | cons b rest =>
    simp only [readByte] at h
    split at h
    · rename_i hb
      injection h with h
      rw [Prod.mk.injEq] at h
      obtain ⟨rfl, rfl⟩ := h
      exact ⟨[b], rfl, fun s => by simp [readByte, hb]⟩
    · exact Except.noConfusion h

theorem parsesPure_bind {p : DecM α} {f : α → DecM β}
    (hp : ParsesPure p) (hf : ∀ a, ParsesPure (f a)) :
    ParsesPure (DecM.bind p f) := by
  intro l b r h
  rw [DecM.bind_ok] at h
  obtain ⟨a, m, h1, h2⟩ := h
  obtain ⟨c1, hc1, hext1⟩ := hp l a m h1
  obtain ⟨c2, hc2, hext2⟩ := hf a m b r h2
  refine ⟨c1 ++ c2, ?_, ?_⟩
  · rw [hc1, hc2, List.append_assoc]
  · intro s
    rw [List.append_assoc]
    exact DecM.bind_step (hext1 (c2 ++ s)) (hext2 s)

theorem parsesPure_ite {c : Prop} [Decidable c] {p q : DecM α}
    (hp : ParsesPure p) (hq : ParsesPure q) :
    ParsesPure (if c then p else q) := by
  split
  · exact hp
  · exact hq

theorem parsesPure_readN (k : Nat) : ParsesPure (readN k) := by
  induction k with
  | zero => exact parsesPure_pur []
  | succ k ih =>
    exact parsesPure_bind parsesPure_readByte
      (fun b => parsesPure_bind ih (fun rest => parsesPure_pur (b :: rest)))

theorem parsesPure_decU64 : ParsesPure decU64 :=
  parsesPure_bind (parsesPure_readN 8) (fun bs => parsesPure_pur (leVal bs))

theorem parsesPure_decU32 : ParsesPure decU32 :=
  parsesPure_bind (parsesPure_readN 4) (fun bs => parsesPure_pur (leVal bs))

theorem parsesPure_decBool : ParsesPure decBool :=
  parsesPure_bind parsesPure_readByte
    (fun _ => parsesPure_ite (parsesPure_pur false)
      (parsesPure_ite (parsesPure_pur true) (parsesPure_fail _)))

theorem parsesPure_decOpt {p : DecM α} (hp : ParsesPure p) :
    ParsesPure (decOpt p) :=
  parsesPure_bind parsesPure_decBool
    (fun _ => parsesPure_ite
      (parsesPure_bind hp (fun a => parsesPure_pur (some a)))
      (parsesPure_pur none))

theorem parsesPure_decString : ParsesPure decString :=
  parsesPure_bind parsesPure_decU64 parsesPure_readN

theorem parsesPure_decInt64 : ParsesPure decInt64 :=
  parsesPure_bind parsesPure_decU64 (fun _ => parsesPure_pur _)

theorem parsesPure_decBoundary : ParsesPure decBoundary :=
  parsesPure_bind parsesPure_decString
    (fun key => parsesPure_bind parsesPure_decU64
      (fun seqno => parsesPure_pur ⟨key, seqno⟩))

theorem parsesPure_decOpId : ParsesPure decOpId :=
  parsesPure_bind parsesPure_decInt64
    (fun t => parsesPure_bind parsesPure_decInt64
      (fun i => parsesPure_pur ⟨t, i⟩))

theorem parsesPure_decFile : ParsesPure decFile := by
  refine parsesPure_bind parsesPure_decInt64 (fun level => ?_)
  refine parsesPure_bind parsesPure_decU64 (fun packed => ?_)
  refine parsesPure_bind parsesPure_decU64 (fun total => ?_)
  refine parsesPure_bind parsesPure_decU64 (fun base => ?_)
  refine parsesPure_bind parsesPure_decBoundary (fun smallest => ?_)
  refine parsesPure_bind parsesPure_decBoundary (fun largest => ?_)
  refine parsesPure_ite ?_ (parsesPure_fail _)
  refine parsesPure_bind parsesPure_decOpId (fun lop => ?_)
  refine parsesPure_bind parsesPure_decBool (fun imported => ?_)
  refine parsesPure_bind parsesPure_decU64 (fun comp => ?_)
  refine parsesPure_bind parsesPure_decU64 (fun nent => ?_)
  refine parsesPure_bind parsesPure_decU64 (fun ndel => ?_)
  refine parsesPure_bind parsesPure_decU64 (fun rks => ?_)
  refine parsesPure_bind parsesPure_decU64 (fun rvs => ?_)
  refine parsesPure_bind parsesPure_decBool (fun init => ?_)
  refine parsesPure_bind parsesPure_decBool (fun marked => ?_)
  exact parsesPure_pur _

theorem parsesPure_decDel : ParsesPure decDel :=
  parsesPure_bind parsesPure_decInt64
    (fun level => parsesPure_bind parsesPure_decU64
      (fun number => parsesPure_pur (level, number)))

theorem parsesPure_decListN {p : DecM α} (hp : ParsesPure p) (k : Nat) :
    ParsesPure (decListN p k) := by
  induction k with
  | zero => exact parsesPure_pur []
  | succ k ih =>
    exact parsesPure_bind hp
      (fun a => parsesPure_bind ih (fun rest => parsesPure_pur (a :: rest)))

theorem parsesPure_decodeCore : ParsesPure decodeVersionEditCore := by
  refine parsesPure_bind (parsesPure_decOpt parsesPure_decString) (fun comparator => ?_)
  refine parsesPure_bind (parsesPure_decOpt parsesPure_decU64) (fun log_number => ?_)
  refine parsesPure_bind (parsesPure_decOpt parsesPure_decU64) (fun prev_log_number => ?_)
  refine parsesPure_bind (parsesPure_decOpt parsesPure_decU64) (fun next_file_number => ?_)
  refine parsesPure_bind (parsesPure_decOpt parsesPure_decU32) (fun max_column_family => ?_)
  refine parsesPure_bind (parsesPure_decOpt parsesPure_decU64) (fun last_sequence => ?_)
  refine parsesPure_bind parsesPure_decOpId (fun flushed_op_id => ?_)
  refine parsesPure_bind parsesPure_decU64 (fun nNew => ?_)
  refine parsesPure_bind (parsesPure_decListN parsesPure_decFile nNew) (fun new_files => ?_)
  refine parsesPure_bind parsesPure_decU64 (fun nDel => ?_)
  refine parsesPure_bind (parsesPure_decListN parsesPure_decDel nDel) (fun dels => ?_)
  refine parsesPure_bind parsesPure_decU32 (fun column_family => ?_)
  refine parsesPure_bind (parsesPure_decOpt parsesPure_decString) (fun column_family_name => ?_)
  refine parsesPure_bind parsesPure_decBool (fun is_column_family_drop => ?_)
  exact parsesPure_ite (parsesPure_fail _) (parsesPure_pur _)

theorem appendEncodedTo_ne_nil (e : VersionEdit) : e.AppendEncodedTo ≠ [] := by
  unfold VersionEdit.AppendEncodedTo
  intro hnil
  rw [List.append_eq_nil] at hnil
  have hlast := hnil.2
  simp [encBool] at hlast

theorem decodeFrom_dropLast_error {b : List Nat} {v : VersionEdit}
    (hb : decodeVersionEditCore b = Except.ok (v, []))
    (hne : b ≠ []) :
    ∃ msg, VersionEdit.DecodeFrom b.dropLast = Except.error msg := by
  unfold VersionEdit.DecodeFrom
  rcases hcore : decodeVersionEditCore b.dropLast with msg | pr
  · exact ⟨msg, rfl⟩
  · obtain ⟨v2, r⟩ := pr
    cases r with
    | nil =>
      exfalso
      obtain ⟨c, hc, hext⟩ := parsesPure_decodeCore _ _ _ hcore
      have hcb : c = b.dropLast := by
        rw [hc]
        simp
      have h2 : decodeVersionEditCore (b.dropLast ++ [b.getLast hne]) =
          Except.ok (v2, [b.getLast hne]) := by
        rw [← hcb]
        exact hext _
      rw [List.dropLast_append_getLast hne, hb] at h2
      injection h2 with h2
      have h3 := congrArg Prod.snd h2
      simp at h3
    | cons x xs => exact ⟨"corruption: trailing bytes", rfl⟩

end RocksDB

namespace RocksDB

/-! ## What every accepted decode satisfies -/

theorem readByte_ok {l : List Nat} {b : Nat} {r : List Nat}
    (h : readByte l = Except.ok (b, r)) : b < 256 := by
  cases l with
  | nil => exact Except.noConfusion h
  | cons x xs =>
    simp only [readByte] at h
    split at h
    · rename_i hx
      injection h with h
      rw [Prod.mk.injEq] at h
      obtain ⟨rfl, rfl⟩ := h
      exact hx
    · exact Except.noConfusion h

theorem readN_ok {k : Nat} : ∀ {l bs r}, readN k l = Except.ok (bs, r) →
    bs.length = k ∧ ∀ b ∈ bs, b < 256 := by
  induction k with
  | zero =>
    intro l bs r h
    unfold readN DecM.pur at h
    injection h with h
    rw [Prod.mk.injEq] at h
    obtain ⟨rfl, rfl⟩ := h
    exact ⟨rfl, by simp⟩
  | succ k ih =>
    intro l bs r h
    unfold readN at h
    rw [DecM.bind_ok] at h
    obtain ⟨b, r1, hb, h⟩ := h
    rw [DecM.bind_ok] at h
    obtain ⟨rest, r2, hrest, h⟩ := h
    unfold DecM.pur at h
    injection h with h
    rw [Prod.mk.injEq] at h
    obtain ⟨rfl, rfl⟩ := h
    obtain ⟨hlen, hforall⟩ := ih hrest
    refine ⟨by simp [hlen], ?_⟩
    intro x hx
    rw [List.mem_cons] at hx
    rcases hx with rfl | hx
    · exact readByte_ok hb
    · exact hforall x hx

theorem leVal_lt (bs : List Nat) (h : ∀ b ∈ bs, b < 256) :
    leVal bs < 256 ^ bs.length := by
  induction bs with
  | nil => simp [leVal]
  | cons b t ih =>
    have h1 : b < 256 := h b (List.mem_cons_self b t)
    have h2 := ih (fun x hx => h x (List.mem_cons_of_mem b hx))
    unfold leVal
    rw [List.length_cons, pow_succ]
    omega

theorem decU64_ok {l : List Nat} {n : Nat} {r : List Nat}
    (h : decU64 l = Except.ok (n, r)) : n < 2 ^ 64 := by
  unfold decU64 at h
  rw [DecM.bind_ok] at h
  obtain ⟨bs, r1, hbs, h⟩ := h
  unfold DecM.pur at h
  injection h with h
  rw [Prod.mk.injEq] at h
  obtain ⟨rfl, rfl⟩ := h
  obtain ⟨hlen, hbytes⟩ := readN_ok hbs
  have hv := leVal_lt bs hbytes
  rw [hlen] at hv
  have h8 : (256 : Nat) ^ 8 = 2 ^ 64 := by norm_num
  omega

theorem decFile_ok {l : List Nat} {x : Int × FileMetaData} {r : List Nat}
    (h : decFile l = Except.ok (x, r)) :
    x.2.smallest.seqno ≤ x.2.largest.seqno ∧
    x.2.fd.GetPathId ≤ 3 ∧
    x.2.refs = 0 ∧ x.2.fd.table_reader = none ∧
    x.2.being_compacted = false ∧ x.2.table_reader_handle = none := by
  unfold decFile at h
  rw [DecM.bind_ok] at h
  obtain ⟨level, r1, _, h⟩ := h
  rw [DecM.bind_ok] at h
  obtain ⟨packed, r2, hpacked, h⟩ := h
  rw [DecM.bind_ok] at h
  obtain ⟨total, r3, _, h⟩ := h
  rw [DecM.bind_ok] at h
  obtain ⟨base, r4, _, h⟩ := h
  rw [DecM.bind_ok] at h
  obtain ⟨smallest, r5, _, h⟩ := h
  rw [DecM.bind_ok] at h
  obtain ⟨largest, r6, _, h⟩ := h
  split at h
  · rename_i hseq
    rw [DecM.bind_ok] at h
    obtain ⟨lop, r7, _, h⟩ := h
    rw [DecM.bind_ok] at h
    obtain ⟨imported, r8, _, h⟩ := h
    rw [DecM.bind_ok] at h
    obtain ⟨comp, r9, _, h⟩ := h
    rw [DecM.bind_ok] at h
    obtain ⟨nent, r10, _, h⟩ := h
    rw [DecM.bind_ok] at h
    obtain ⟨ndel, r11, _, h⟩ := h
    rw [DecM.bind_ok] at h
    obtain ⟨rks, r12, _, h⟩ := h
    rw [DecM.bind_ok] at h
    obtain ⟨rvs, r13, _, h⟩ := h
    rw [DecM.bind_ok] at h
    obtain ⟨init, r14, _, h⟩ := h
    rw [DecM.bind_ok] at h
    obtain ⟨marked, r15, _, h⟩ := h
    unfold DecM.pur at h
    injection h with h
    rw [Prod.mk.injEq] at h
    obtain ⟨rfl, rfl⟩ := h
    refine ⟨hseq, ?_, rfl, rfl, rfl, rfl⟩
    have hp64 := decU64_ok hpacked
    show (packed / (kFileNumberMask + 1)) % 2 ^ 32 ≤ 3
    have hmask : kFileNumberMask = 2 ^ 62 - 1 := by norm_num [kFileNumberMask]
    rw [hmask]
    omega
  · exact Except.noConfusion h

theorem decListN_ok_forall {p : DecM α} {Q : α → Prop}
    (hQ : ∀ {l x r}, p l = Except.ok (x, r) → Q x) :
    ∀ {k l xs r}, decListN p k l = Except.ok (xs, r) → ∀ x ∈ xs, Q x := by
  intro k
  induction k with
  | zero =>
    intro l xs r h x hx
    unfold decListN DecM.pur at h
    injection h with h
    rw [Prod.mk.injEq] at h
    obtain ⟨rfl, rfl⟩ := h
    simp at hx
  | succ k ih =>
    intro l xs r h x hx
    unfold decListN at h
    rw [DecM.bind_ok] at h
    obtain ⟨a, r1, ha, h⟩ := h
    rw [DecM.bind_ok] at h
    obtain ⟨rest, r2, hrest, h⟩ := h
    unfold DecM.pur at h
    injection h with h
    rw [Prod.mk.injEq] at h
    obtain ⟨rfl, rfl⟩ := h
    rw [List.mem_cons] at hx
    rcases hx with rfl | hx
    · exact hQ ha
    · exact ih hrest x hx

theorem decodeCore_ok {l : List Nat} {v : VersionEdit} {r : List Nat}
    (h : decodeVersionEditCore l = Except.ok (v, r)) : DecodedOK v := by
  unfold decodeVersionEditCore at h
  rw [DecM.bind_ok] at h
  obtain ⟨comparator, r1, _, h⟩ := h
  rw [DecM.bind_ok] at h
  obtain ⟨log_number, r2, _, h⟩ := h
  rw [DecM.bind_ok] at h
  obtain ⟨prev_log_number, r3, _, h⟩ := h
  rw [DecM.bind_ok] at h
  obtain ⟨next_file_number, r4, _, h⟩ := h
  rw [DecM.bind_ok] at h
  obtain ⟨max_column_family, r5, _, h⟩ := h
  rw [DecM.bind_ok] at h
  obtain ⟨last_sequence, r6, _, h⟩ := h
  rw [DecM.bind_ok] at h
  obtain ⟨flushed_op_id, r7, _, h⟩ := h
  rw [DecM.bind_ok] at h
  obtain ⟨nNew, r8, _, h⟩ := h
  rw [DecM.bind_ok] at h
  obtain ⟨new_files, r9, hfiles, h⟩ := h
  rw [DecM.bind_ok] at h
  obtain ⟨nDel, r10, _, h⟩ := h
  rw [DecM.bind_ok] at h
  obtain ⟨dels, r11, _, h⟩ := h
  rw [DecM.bind_ok] at h
  obtain ⟨column_family, r12, _, h⟩ := h
  rw [DecM.bind_ok] at h
  obtain ⟨column_family_name, r13, _, h⟩ := h
  rw [DecM.bind_ok] at h
  obtain ⟨is_column_family_drop, r14, _, h⟩ := h
  split at h
  · exact Except.noConfusion h
  · rename_i hcond
    unfold DecM.pur at h
    injection h with h
    rw [Prod.mk.injEq] at h
    obtain ⟨rfl, rfl⟩ := h
    constructor
    · intro p hp
      exact decListN_ok_forall (fun hx => decFile_ok hx) hfiles p hp
    · intro hcontra
      have h1 : column_family_name.isSome = true := hcontra.1
      have h2 : is_column_family_drop = true := hcontra.2
      exact hcond (by simp [h1, h2])

/-! ## The encode and decode claims -/

/-- C1: encode and decode round trip: for every well-formed
VersionEdit built through the public mutators, DecodeFrom on the bytes
of AppendEncodedTo succeeds and yields a record field-equal to the
original — same presence of every optional field, same flushed op id,
same deleted-files set, the new-files list in insertion order with
every persistable FileMetaData field equal — while the transient
fields (refs, table reader pointer and handle, being_compacted) decode
to their defaults, which is exactly what persistedEdit expresses. -/
theorem encode_decode_roundtrip (e : VersionEdit) (h : WellFormed e) :
    VersionEdit.DecodeFrom e.AppendEncodedTo =
      Except.ok (persistedEdit e) := by
  unfold VersionEdit.DecodeFrom
  rw [roundtrip_core e h]

/-- Witness for C1 at a concrete well-formed edit carrying optional
fields, one file addition with live state, and two deletions. -/
theorem encode_decode_roundtrip_witness :
    VersionEdit.DecodeFrom sampleEdit.AppendEncodedTo =
      Except.ok (persistedEdit sampleEdit) :=
  encode_decode_roundtrip sampleEdit (by decide)

/-- C5: DecodeFrom rejects corruption atomically: truncating the
encoding of any well-formed record by one byte yields a typed
corruption error rather than a record, and any bytes DecodeFrom does
accept decode to a record whose file entries satisfy the boundary
ordering and identity bit-width contracts with transient fields at
defaults and whose lifecycle fields are mutually exclusive. -/
theorem decode_corruption_guard (e : VersionEdit) (b : List Nat)
    (v : VersionEdit) (h : WellFormed e) :
    (∃ msg, VersionEdit.DecodeFrom (e.AppendEncodedTo.dropLast) =
      Except.error msg) ∧
    (VersionEdit.DecodeFrom b = Except.ok v → DecodedOK v) := by
  constructor
  · exact decodeFrom_dropLast_error (roundtrip_core e h)
      (appendEncodedTo_ne_nil e)
  · intro hd
    unfold VersionEdit.DecodeFrom at hd
    rcases hcore : decodeVersionEditCore b with msg | pr
    · rw [hcore] at hd
      exact Except.noConfusion hd
    · obtain ⟨v2, r⟩ := pr
      rw [hcore] at hd
      cases r with
      | nil =>
        injection hd with hd
        subst hd
        exact decodeCore_ok hcore
      | cons x xs => exact Except.noConfusion hd

/-- Witness for C5 at the concrete well-formed edit. -/
theorem decode_corruption_guard_witness :
    (∃ msg, VersionEdit.DecodeFrom (sampleEdit.AppendEncodedTo.dropLast) =
      Except.error msg) ∧
    (VersionEdit.DecodeFrom [] = Except.ok VersionEdit.Clear →
      DecodedOK VersionEdit.Clear) :=
  decode_corruption_guard sampleEdit [] VersionEdit.Clear (by decide)

end RocksDB
